import Mathlib

/-!
Verification of the forge-fsql interactive SQL CLI.

Strings of the TypeScript source are modelled as `List Char` (`Str`), so that
all character-level operations (`trim`, `split(/\s+/)`, `endsWith(";")`,
`join("\n")`, …) are executable Lean functions translated from the source.
The terminal-facing display strings of the formatter and client are modelled
with Lean `String`; `chalk` colour wrappers are the identity (ANSI styling is
pure presentation and carries no content).
-/

/-- Model of JavaScript strings: a sequence of characters. -/
abbrev Str := List Char

/-- Conversion from Lean string literals to the `Str` model. -/
def strL (s : String) : Str := s.toList

/-- JS `String.prototype.trim`: drop whitespace from both ends. -/
def jsTrim (s : Str) : Str :=
  ((s.dropWhile Char.isWhitespace).reverse.dropWhile Char.isWhitespace).reverse

/-- JS `String.prototype.trimStart`. -/
def jsTrimStart (s : Str) : Str := s.dropWhile Char.isWhitespace

/-- JS `String.prototype.toLowerCase` (character-wise, as used on identifiers). -/
def lowerStr (s : Str) : Str := s.map Char.toLower

/-- JS `String.prototype.toUpperCase`. -/
def upperStr (s : Str) : Str := s.map Char.toUpper

/-- JS `str.split(/\s+/)`: split on maximal whitespace runs.  A leading
(resp. trailing) whitespace run produces a leading (resp. trailing) empty
piece, and the empty string yields `[""]`, exactly as in JavaScript. -/
def jsSplitWs : Str → List Str
  | [] => [[]]
  | c :: cs =>
    let r := jsSplitWs cs
    if c.isWhitespace then
      match cs with
      | c2 :: _ => if c2.isWhitespace then r else [] :: r
      | [] => [] :: r
    else
      match r with
      | [] => [[c]]
      | w :: ws => (c :: w) :: ws

/-- JS `str.endsWith(";")`. -/
def endsWithSemi (s : Str) : Bool := s.getLast? == some ';'

/-- JS `str.startsWith(".")`. -/
def startsWithDot (s : Str) : Bool := s.head? == some '.'

/-- First-occurrence deduplication, as JS `[...new Set(xs)]` (insertion order). -/
def jsSetDedup {α : Type} [DecidableEq α] (l : List α) : List α :=
  l.foldl (fun acc a => if a ∈ acc then acc else acc ++ [a]) []

/-- One insertion step of a JS `Set` (kept separate for reuse in proofs). -/
def insertStep {α : Type} [DecidableEq α] (acc : List α) (a : α) : List α :=
  if a ∈ acc then acc else acc ++ [a]

example : jsSplitWs (strL "a  b") = [strL "a", strL "b"] := by decide
example : jsSplitWs (strL " a") = [[], strL "a"] := by decide
example : jsSplitWs (strL "a ") = [strL "a", []] := by decide
example : jsSplitWs (strL "") = [[]] := by decide
example : jsTrim (strL "  .help  ") = strL ".help" := by decide

/-! ### Data model: query results (src/client.ts `SqlResult`) -/

/-- A JavaScript value as it occurs in result-row cells. -/
inductive JsValue where
  | null
  | bool (b : Bool)
  | num (n : Int)
  | str (s : String)
deriving DecidableEq

/-- A result-row object: ordered key/value pairs (keys unique in practice). -/
abbrev FmtRow := List (String × JsValue)

/-- `SqlResult` from src/client.ts, generic in the row type (the source uses
`any[]`; the formatter consumes row objects, the schema loader consumes
`(table_name, column_name)` rows).  `metadata` is modelled by its only
consumed entry, `queryTime`. -/
structure QueryResultOf (ρ : Type) where
  rows : Option (List ρ) := none
  affectedRows : Option Nat := none
  error : Option String := none
  queryTime : Option Nat := none
deriving DecidableEq

abbrev SqlResult := QueryResultOf FmtRow

/-! ### Result Formatter (src/formatter.ts).  `chalk` wrappers are identity. -/

/-- `ResultFormatter.formatValue`. -/
def ResultFormatter.formatValue : JsValue → String
  | .null => "NULL"
  | .bool b => if b then "true" else "false"
  | .num n => toString n
  | .str s => s

/-- Cell access `row[h]`: a missing key behaves like `undefined` (`null`). -/
def rowCell (row : FmtRow) (h : String) : JsValue :=
  (row.lookup h).getD JsValue.null

/-- `ResultFormatter.formatTable`.  The `cli-table3` box drawing is rendered
as plain separator-joined lines; the content (header from the keys of the
first row, cells through `formatValue`, row-count footer with
singular/plural) is as in the source. -/
def ResultFormatter.formatTable (rows : List FmtRow) : String :=
  match rows with
  | [] => "(0 rows)"
  | r0 :: _ =>
    let headers := r0.map Prod.fst
    let headerLine := String.intercalate " | " headers
    let bodyLines := rows.map (fun row =>
      String.intercalate " | " (headers.map (fun h => ResultFormatter.formatValue (rowCell row h))))
    headerLine ++ "\n" ++ String.intercalate "\n" bodyLines ++ "\n" ++
      "(" ++ toString rows.length ++ " row" ++ (if rows.length != 1 then "s" else "") ++ ")"

/-- `ResultFormatter.formatError`. -/
def ResultFormatter.formatError (error : String) : String :=
  "✗ Error: " ++ error

/-- `ResultFormatter.formatSuccess`. -/
def ResultFormatter.formatSuccess (message : String) : String :=
  "✓ " ++ message

/-- JS truthiness of an optional string: `undefined` and `""` are falsy. -/
def strTruthy (o : Option String) : Bool :=
  match o with
  | some s => !s.isEmpty
  | none => false

/-- `ResultFormatter.formatResult`: `if (result.error) … if (result.rows) …
if (result.affectedRows !== undefined) …` else a generic success message.
Note the error guard is JS truthiness, so `error: ""` falls through. -/
def ResultFormatter.formatResult (result : SqlResult) : String :=
  if strTruthy result.error then ResultFormatter.formatError (result.error.getD "")
  else
    match result.rows with
    | some rows => ResultFormatter.formatTable rows
    | none =>
      match result.affectedRows with
      | some n =>
        ResultFormatter.formatSuccess
          (toString n ++ " " ++ (if n == 1 then "row" else "rows") ++ " affected")
      | none => "Query executed successfully"

/-! ### Remote Query Client (src/client.ts `ForgeClient.execute`) -/

/-- The delimiter-appending step of `execute`: `sql.trim().endsWith(";") ? sql
: sql + ";"`. -/
def finalSqlOf (sql : String) : String :=
  if sql.trim.endsWith ";" then sql else sql ++ ";"

/-- Outcome of the HTTP exchange performed by `fetch` inside `execute`:
either an HTTP response arrived (with status, raw body text and — when the
status is 2xx — the JSON-decoded body `data`), or the fetch promise rejected
with an `AbortError` (the 30s timeout fired), or it rejected with some other
transport error carrying `error.message` (`""` models a missing message). -/
inductive FetchOutcome where
  | response (status : Nat) (bodyText : String) (data : SqlResult)
  | abortError
  | failure (message : String)
deriving DecidableEq

/-- `ForgeClient.execute`.  The whole body sits in one `try`/`catch`, so the
function is total — every outcome is converted to a returned `SqlResult`,
never an exception: non-2xx responses (`!response.ok`) yield an `error` built
from the status and response body; an `AbortError` yields the timeout error;
any other rejection yields `error.message || "Unknown error"`.  On a 2xx
response the decoded body is returned with `metadata.queryTime` set to the
elapsed time. -/
def ForgeClient.execute (sql : String) (outcome : FetchOutcome) (elapsed : Nat) : SqlResult :=
  let _finalSql := finalSqlOf sql
  match outcome with
  | .response status bodyText data =>
    if 200 ≤ status ∧ status ≤ 299 then
      { data with queryTime := some elapsed }
    else
      { error := some ("HTTP " ++ toString status ++ ": " ++ bodyText) }
  | .abortError => { error := some "Query timeout exceeded" }
  | .failure message =>
    { error := some (if message.isEmpty then "Unknown error" else message) }

/-! ### Command Registry & classifier (src/commands.ts) -/

/-- A dot command of the registry.  The effectful `execute` bodies issue
client calls and format results; the classifier only consumes `name`, and the
one command whose effect the claims examine (`.refreshSchema`) is modelled
separately below. -/
structure Command where
  name : Str
  description : Str
deriving DecidableEq

/-- The fixed registry `specialCommands`, in source order. -/
def specialCommands : List Command :=
  [ ⟨strL ".schema", strL "Show database schema"⟩,
    ⟨strL ".tables", strL "List all tables"⟩,
    ⟨strL ".describe", strL "Describe a table (.describe table_name)"⟩,
    ⟨strL ".indexes", strL "Show all indexes"⟩,
    ⟨strL ".migrations", strL "List all migrations"⟩,
    ⟨strL ".database", strL "Show the database name"⟩,
    ⟨strL ".refreshSchema", strL "Refresh auto-complete schema cache"⟩,
    ⟨strL ".help", strL "Show available commands"⟩ ]

/-- Result of `parseCommand`. -/
structure ParsedCommand where
  command : Option Command
  args : Option Str
  isSpecial : Bool
deriving DecidableEq

/-- `parseCommand`: trim, then classify on a leading `.`; the first
whitespace-delimited token is matched with `===` against the registry and the
remaining tokens are re-joined with single spaces as `args`. -/
def parseCommand (input : Str) : ParsedCommand :=
  let trimmed := jsTrim input
  if ['.'].isPrefixOf trimmed then
    let parts := jsSplitWs trimmed
    let cmdName := parts.headD []
    let args := List.intercalate [' '] (parts.drop 1)
    let command := specialCommands.find? (fun c => c.name == cmdName)
    { command := command, args := some args, isSpecial := true }
  else
    { command := none, args := none, isSpecial := false }

example :
    parseCommand (strL ".describe foo") =
      ⟨some ⟨strL ".describe", strL "Describe a table (.describe table_name)"⟩,
        some (strL "foo"), true⟩ := by decide
example : parseCommand (strL "SELECT 1") = ⟨none, none, false⟩ := by decide
example : (parseCommand (strL " .help")).isSpecial = true := by decide

/-! ### Schema Cache (src/schema.ts) -/

/-- `SchemaCache`: the JS `Map` of columns is an association list in key
insertion order. -/
structure SchemaCache where
  tables : List Str
  columns : List (Str × List Str)
  allColumns : List Str
deriving DecidableEq

/-- The startup / freshly-built empty cache. -/
def emptyCache : SchemaCache := ⟨[], [], []⟩

/-- A metadata row as delivered by the backend: each of the lower- and
upper-case field names may be present (`some`) or absent / `null` (`none`). -/
structure MetaRow where
  table_name : Option Str := none
  TABLE_NAME : Option Str := none
  column_name : Option Str := none
  COLUMN_NAME : Option Str := none
deriving DecidableEq

abbrev SchemaResult := QueryResultOf MetaRow

/-- JS `a || b` on optional strings: `undefined`/`null` and `""` are falsy. -/
def jsOrStr (a b : Option Str) : Option Str :=
  match a with
  | some s => if s.isEmpty then b else some s
  | none => b

/-- The name extraction of the loop body: `row.table_name || row.TABLE_NAME`,
`row.column_name || row.COLUMN_NAME`, and the `if (!tableName || !columnName)
continue` guard.  Returns the `(tableName, columnName)` pair of a row that is
not skipped. -/
def rowEntry (r : MetaRow) : Option (Str × Str) :=
  match jsOrStr r.table_name r.TABLE_NAME, jsOrStr r.column_name r.COLUMN_NAME with
  | some t, some c => if t.isEmpty || c.isEmpty then none else some (t, c)
  | _, _ => none

/-- JS `map.set(k, …get(k).push(v))` on the association-list model: append `v`
to the entry of `k` (all entries with that key; keys are unique here). -/
def mapPush (m : List (Str × List Str)) (k : Str) (v : Str) : List (Str × List Str) :=
  m.map (fun q => if q.1 = k then (q.1, q.2 ++ [v]) else q)

/-- Processing one valid `(tableName, columnName)` pair: `tableSet.add`,
`columnSet.add` (a JS `Set` keeps first-occurrence insertion order, which is
what `Array.from` reads back) and the per-table column push. -/
def pairStep (st : SchemaCache) (p : Str × Str) : SchemaCache :=
  { tables := insertStep st.tables p.1
    columns :=
      if (st.columns.lookup p.1).isSome
      then mapPush st.columns p.1 p.2
      else st.columns ++ [(p.1, [p.2])]
    allColumns := insertStep st.allColumns p.2 }

/-- One iteration of `for (const row of result.rows)`. -/
def loadStep (st : SchemaCache) (r : MetaRow) : SchemaCache :=
  match rowEntry r with
  | none => st
  | some p => pairStep st p

/-- The cache built by `loadSchema` from the metadata rows. -/
def loadRows (rows : List MetaRow) : SchemaCache :=
  rows.foldl loadStep emptyCache

/-- The cache `loadSchema` builds from the metadata query result: a fresh
cache is always built and installed (`schemaCache = cache`), whether or not
the query succeeded; `if (result.rows)` only guards the loop. -/
def loadSchemaCache (result : SchemaResult) : SchemaCache :=
  match result.rows with
  | none => emptyCache
  | some rows => loadRows rows

/-- The cache visible through `getSchemaCache` after `loadSchema` completes,
as a function of the previously installed generation: the source assigns the
fresh cache unconditionally, so the previous generation is discarded. -/
def installLoadedSchema (_prev : SchemaCache) (result : SchemaResult) : SchemaCache :=
  loadSchemaCache result

/-- The success message of `specialCommands[.refreshSchema].execute`. -/
def refreshSuccessMessage (timeMs : Nat) : String :=
  "✓ Schema refreshed in " ++ toString timeMs ++ "ms"

/-- The failure message of the `catch` branch of `.refreshSchema`. -/
def refreshFailureMessage (msg : String) : String :=
  "✗ Failed to refresh schema: " ++ msg

/-- `.refreshSchema`'s `execute`: the new cache generation and the displayed
message.  `loadSchema` can only throw if `client.execute` throws, and
`client.execute` converts every failure into a returned `QueryResult` (see
`ForgeClient.execute`), so in this embedding `loadSchema` is total and the
`catch` branch producing `refreshFailureMessage` is unreachable: the success
message is always displayed. -/
def refreshSchemaExecute (prev : SchemaCache) (result : SchemaResult) (timeMs : Nat) :
    SchemaCache × String :=
  (installLoadedSchema prev result, refreshSuccessMessage timeMs)

/-! ### Completion Engine (src/completer.ts) -/

/-- `lastWord.substring(0, dotIndex)` and `lastWord.substring(dotIndex + 1)`
around `lastIndexOf(".")`: the parts before and after the last dot. -/
def lastDotSplit (w : Str) : Str × Str :=
  let revCol := w.reverse.takeWhile (fun c => c ≠ '.')
  (w.take (w.length - revCol.length - 1), revCol.reverse)

/-- `completer(line)`: readline completion candidates and the substring being
replaced, translated branch by branch from the source; the process-wide
`getSchemaCache()` is passed explicitly. -/
def completer (cache : SchemaCache) (line : Str) : List Str × Str :=
  let trimmed := jsTrimStart line
  if ['.'].isPrefixOf trimmed then
    ((specialCommands.filter
        (fun c => (lowerStr trimmed).isPrefixOf (lowerStr c.name))).map (fun c => c.name),
      trimmed)
  else
    let words := jsSplitWs trimmed
    let lastWord := words.getLastD []
    if lastWord.isEmpty then ([], [])
    else
      let tableStep : Option (List Str × Str) :=
        if '.' ∈ lastWord then
          let tablePart := (lastDotSplit lastWord).1
          let columnPart := (lastDotSplit lastWord).2
          match (cache.columns.map Prod.fst).find?
              (fun t => lowerStr t == lowerStr tablePart) with
          | some tableKey =>
            let tableColumns := (cache.columns.lookup tableKey).getD []
            some
              ((tableColumns.filter
                  (fun c => (lowerStr columnPart).isPrefixOf (lowerStr c))).map
                (fun c => tablePart ++ '.' :: c),
              lastWord)
          | none => none
        else none
      match tableStep with
      | some r => r
      | none =>
        let prevWord := if words.length > 1 then upperStr (words.getD (words.length - 2) []) else []
        if prevWord ∈ [strL "FROM", strL "JOIN", strL "INTO", strL "UPDATE", strL "TABLE"] then
          (cache.tables.filter (fun t => (lowerStr lastWord).isPrefixOf (lowerStr t)), lastWord)
        else
          (jsSetDedup
            ((cache.tables ++ cache.allColumns).filter
              (fun c => (lowerStr lastWord).isPrefixOf (lowerStr c))),
            lastWord)

/-- The cache of completer.test.ts, for concrete checks. -/
def testCache : SchemaCache :=
  { tables := [strL "users", strL "posts", strL "comments"]
    columns :=
      [ (strL "users", [strL "id", strL "name", strL "email"]),
        (strL "posts", [strL "id", strL "title", strL "user_id", strL "content"]),
        (strL "comments", [strL "id", strL "post_id", strL "user_id", strL "text"]) ]
    allColumns :=
      [strL "id", strL "name", strL "email", strL "title", strL "user_id",
        strL "content", strL "post_id", strL "text"] }

example : completer testCache (strL "") = ([], []) := by decide
example : completer testCache (strL "   ") = ([], []) := by decide
example : (completer testCache (strL ".h")).1 = [strL ".help"] := by decide
example : (completer testCache (strL "SELECT * FROM u")).1 = [strL "users"] := by decide
example :
    completer testCache (strL "SELECT users.") =
      ([strL "users.id", strL "users.name", strL "users.email"], strL "users.") := by decide
example : (completer testCache (strL "SELECT users.n")).1 = [strL "users.name"] := by decide
example : (completer testCache (strL "SELECT USERS.i")).1 = [strL "USERS.id"] := by decide
example : (completer testCache (strL "SELECT nonexistent.")).1 = [] := by decide
example : strL "users" ∈ (completer testCache (strL "SELECT u")).1 := by decide
example : strL "user_id" ∈ (completer testCache (strL "SELECT u")).1 := by decide

/-! ### Session Loop (src/index.ts `ForgeSqlCli.handleLine`) -/

/-- `SessionState`: the multiline assembly state owned by the session loop. -/
structure SessionState where
  multilineBuffer : Str
  isMultiline : Bool
deriving DecidableEq

/-- What one `handleLine` call does besides updating the state: re-issue the
prompt, dispatch a complete unit to `executeCommand` (which records it in
history and classifies/executes it), or close the session (`rl.close()`). -/
inductive LineEffect where
  | reprompt
  | dispatch (sql : Str)
  | closeSession
deriving DecidableEq

/-- The exit-token check `input === "exit" || input === "quit" || input === ".exit"`. -/
def isExitToken (s : Str) : Bool :=
  s == strL "exit" || s == strL "quit" || s == strL ".exit"

/-- `ForgeSqlCli.handleLine`, translated guard by guard: trim; exit tokens
close; empty input re-prompts; in `SINGLE` state a non-empty line neither
`;`-terminated nor dot-prefixed seeds the buffer and enters `MULTILINE`; in
`MULTILINE` state the line is appended to the buffer with a `"\n"` separator
and a `;`-terminated line dispatches the accumulated text and resets to
`SINGLE`; otherwise (`SINGLE` state, `;`-terminated or dot-prefixed) the line
is dispatched directly. -/
def ForgeSqlCli.handleLine (st : SessionState) (line : Str) : SessionState × LineEffect :=
  let input := jsTrim line
  if isExitToken input then (st, .closeSession)
  else if input.isEmpty then (st, .reprompt)
  else if !st.isMultiline && !endsWithSemi input && !startsWithDot input then
    ({ multilineBuffer := input, isMultiline := true }, .reprompt)
  else if st.isMultiline then
    let buf := st.multilineBuffer ++ '\n' :: input
    if endsWithSemi input then
      ({ multilineBuffer := [], isMultiline := false }, .dispatch buf)
    else
      ({ multilineBuffer := buf, isMultiline := true }, .reprompt)
  else
    (st, .dispatch input)

/-- Feeding a sequence of raw lines through the session loop: returns the
final state and the SQL/command texts dispatched to `executeCommand`, in
order; a close stops the run. -/
def runLines : SessionState → List Str → SessionState × List Str
  | st, [] => (st, [])
  | st, l :: ls =>
    match ForgeSqlCli.handleLine st l with
    | (st', .closeSession) => (st', [])
    | (st', .dispatch sql) =>
      let rest := runLines st' ls
      (rest.1, sql :: rest.2)
    | (st', .reprompt) => runLines st' ls

/-- The initial session state: empty buffer, `SINGLE`. -/
def initialState : SessionState := ⟨[], false⟩

/-- The `"\n"`-separated tail that `MULTILINE` accumulation appends to the
seed line: one `'\n'` and the trimmed line, per line. -/
def joinedTail (ls : List Str) : Str :=
  ls.foldr (fun l acc => ('\n' :: jsTrim l) ++ acc) []

example :
    runLines initialState [strL "SELECT a", strL "FROM t;"] =
      (initialState, [strL "SELECT a\nFROM t;"]) := by decide
example :
    runLines initialState [strL "SELECT 1;"] = (initialState, [strL "SELECT 1;"]) := by decide
example : runLines initialState [strL "SELECT a", strL "exit"] = (⟨strL "SELECT a", true⟩, []) := by decide

/-! ### History log (src/history.ts) -/

/-- `History.add`: trim; push unless empty or equal to the immediately
preceding entry. -/
def History.add (history : List Str) (command : Str) : List Str :=
  let trimmed := jsTrim command
  if !trimmed.isEmpty && history.getLast? != some trimmed then history ++ [trimmed]
  else history

/-- The file content written by `History.save`: the most recent `maxSize`
entries (`slice(-maxSize)`; JS `slice(-0)` is `slice(0)`, the whole array)
joined with `"\n"`. -/
def History.saveContent (history : List Str) (maxSize : Nat) : Str :=
  List.intercalate ['\n']
    (if maxSize = 0 then history else history.drop (history.length - maxSize))

/-- The in-memory history produced by `History.load` from a file content:
split on `"\n"` and drop empty lines (`filter(Boolean)`). -/
def History.loadList (content : Str) : List Str :=
  (content.splitOn '\n').filter (fun l => !l.isEmpty)

example :
    History.loadList (History.saveContent [strL "a", strL "b"] 1000) =
      [strL "a", strL "b"] := by decide
example :
    History.loadList (History.saveContent [strL "SELECT a\nFROM t;"] 1000) =
      [strL "SELECT a", strL "FROM t;"] := by decide

/-! ## Claims -/

/-- Claim C7: for every input SQL string and every failing outcome of the HTTP
exchange — non-2xx status, network/transport failure, or abort due to timeout
— `ForgeClient.execute` returns a `QueryResult` whose `error` field describes
the failure (non-2xx uses the response body, timeout yields the timeout
error).  `ForgeClient.execute` is a total function into `SqlResult` in this
embedding because the source wraps the whole exchange in `try`/`catch`: no
exception reaches the caller. -/
theorem client_execute_failure_is_error (sql bodyText msg : String)
    (status elapsed : Nat) (data : SqlResult)
    (hns : ¬(200 ≤ status ∧ status ≤ 299)) :
    (ForgeClient.execute sql (.response status bodyText data) elapsed).error
        = some ("HTTP " ++ toString status ++ ": " ++ bodyText)
      ∧ (ForgeClient.execute sql .abortError elapsed).error
        = some "Query timeout exceeded"
      ∧ (ForgeClient.execute sql (.failure msg) elapsed).error
        = some (if msg.isEmpty then "Unknown error" else msg) := by
  refine ⟨?_, rfl, rfl⟩
  simp [ForgeClient.execute, hns]

/-- Witness for C7 at a concrete failing exchange (HTTP 500). -/
theorem client_execute_failure_is_error_witness :
    (ForgeClient.execute "SELECT 1" (.response 500 "boom" {}) 3).error
      = some ("HTTP " ++ toString 500 ++ ": " ++ "boom") :=
  (client_execute_failure_is_error "SELECT 1" "boom" "x" 500 3 {} (by decide)).1

/-- Claim C6, counterexample: with `error` set to the empty string (a set but
JS-falsy value) and a non-empty `rows` array, `formatResult` does not render
only the error — it renders the table, so its output differs from the error
rendering and changes when the row content changes. -/
theorem formatResult_empty_error_counterexample :
    ResultFormatter.formatResult
        { rows := some [[("name", JsValue.str "alice")]], error := some "" }
        ≠ ResultFormatter.formatError ""
      ∧ ResultFormatter.formatResult
          { rows := some [[("name", JsValue.str "alice")]], error := some "" }
        ≠ ResultFormatter.formatResult
          { rows := some [[("name", JsValue.str "bob")]], error := some "" } := by
  decide

/-- Claim C6 (amended: `error` set to a non-empty string — the source guard is
JS truthiness, so `error: ""` falls through to row rendering): whenever
`error` is a non-empty string, `formatResult` renders exactly the error
rendering, for every `rows`/`affectedRows`/metadata content, so no content
derived from the rows reaches the output. -/
theorem formatResult_error_ignores_rows (rows : Option (List FmtRow))
    (affected : Option Nat) (qt : Option Nat) (e : String) (he : e ≠ "") :
    ResultFormatter.formatResult ⟨rows, affected, some e, qt⟩
      = ResultFormatter.formatError e := by
  have ht : strTruthy (some e) = true := by
    have : e.isEmpty = false := by
      rcases h : e.isEmpty with _ | _
      · rfl
      · exact absurd ((String.isEmpty_iff e).mp h) he
    simp [strTruthy, this]
  simp [ResultFormatter.formatResult, ht]

/-- Witness for C6 (amended) at a concrete error and non-empty rows. -/
theorem formatResult_error_ignores_rows_witness :
    ResultFormatter.formatResult
        ⟨some [[("name", JsValue.str "alice")]], none, some "syntax error", none⟩
      = ResultFormatter.formatError "syntax error" :=
  formatResult_error_ignores_rows (some [[("name", JsValue.str "alice")]]) none none
    "syntax error" (by decide)

/-- Claim C2 (code bug): when the metadata query fails, `client.execute`
returns the failure as a value (`error` set, no `rows`), so `loadSchema` does
not throw: it builds a fresh empty cache and installs it over the previous
generation, and `.refreshSchema` displays the success message.  Evaluated at
a concrete failing input: the previous generation is lost (the claim — and
the spec's SchemaLoadError design — says it must remain readable and the
refresh must report a displayable failure). -/
theorem schema_failure_wipes_cache :
    refreshSchemaExecute
        ⟨[strL "users"], [(strL "users", [strL "id"])], [strL "id"]⟩
        ({ error := some "HTTP 500: boom" } : SchemaResult) 7
      = (emptyCache, refreshSuccessMessage 7)
    ∧ emptyCache ≠ ⟨[strL "users"], [(strL "users", [strL "id"])], [strL "id"]⟩
    ∧ refreshSuccessMessage 7 ≠ refreshFailureMessage "HTTP 500: boom" := by
  decide

/-- Claim C3, counterexample: in `MULTILINE` state a dot-line IS appended to
the multiline buffer — starting from the initial state, `SELECT 1` enters
`MULTILINE` and the following `.help` is appended to the buffer with a
newline separator (the dot-guard of `handleLine` is only part of the
`SINGLE`-state entry check). -/
theorem dot_line_appended_counterexample :
    (runLines initialState [strL "SELECT 1", strL ".help"]).1.multilineBuffer
      = strL "SELECT 1\n.help" := by
  decide

/-- Claim C3 (amended: dot-lines escape multiline accumulation only in
`SINGLE` state): in `SINGLE` state a line whose trim starts with `.` (and is
not the `.exit` token) is dispatched directly as a complete unit, leaving the
state unchanged — never appended to any buffer; in `MULTILINE` state,
however, such a line is appended to the buffer like any other non-terminating
line. -/
theorem dot_line_handling (st : SessionState) (line : Str)
    (hd : startsWithDot (jsTrim line) = true)
    (hx : isExitToken (jsTrim line) = false) :
    (st.isMultiline = false →
      ForgeSqlCli.handleLine st line = (st, .dispatch (jsTrim line)))
    ∧ (st.isMultiline = true → endsWithSemi (jsTrim line) = false →
      ForgeSqlCli.handleLine st line
        = (⟨st.multilineBuffer ++ '\n' :: jsTrim line, true⟩, .reprompt)) := by
  have hne : (jsTrim line).isEmpty = false := by
    rcases h : jsTrim line with _ | _
    · rw [h] at hd; simp [startsWithDot] at hd
    · rfl
  constructor
  · intro hm
    simp [ForgeSqlCli.handleLine, hx, hne, hm, hd]
  · intro hm hsemi
    simp [ForgeSqlCli.handleLine, hx, hne, hm, hd, hsemi]

/-- Witness for C3 (amended): `.help` in `SINGLE` state is dispatched
directly, state unchanged. -/
theorem dot_line_handling_witness :
    ForgeSqlCli.handleLine initialState (strL ".help")
      = (initialState, .dispatch (jsTrim (strL ".help"))) :=
  (dot_line_handling initialState (strL ".help") (by decide) (by decide)).1 rfl

/-- Claim C10: in `MULTILINE` state a line that trims to the empty string is
discarded: `handleLine` returns the state unchanged (same buffer, still
`MULTILINE`) with the re-prompt effect — nothing is dispatched, so
`executeCommand` (and with it the history recording) is not reached. -/
theorem multiline_empty_line_discarded (st : SessionState) (line : Str)
    (hms : st.isMultiline = true) (he : jsTrim line = []) :
    ForgeSqlCli.handleLine st line = (st, .reprompt) := by
  have h1 : isExitToken ([] : Str) = false := by decide
  simp [ForgeSqlCli.handleLine, he, h1]

/-- Witness for C10 at a concrete `MULTILINE` state and whitespace line. -/
theorem multiline_empty_line_discarded_witness :
    ForgeSqlCli.handleLine ⟨strL "SELECT 1", true⟩ (strL "   ")
      = (⟨strL "SELECT 1", true⟩, .reprompt) :=
  multiline_empty_line_discarded ⟨strL "SELECT 1", true⟩ (strL "   ") rfl (by decide)

/-- Claim C8, counterexample: `parseCommand` trims its input before the `.`
check, so the input `" .help"` — which does NOT begin with `.` — is still
classified special, contradicting the claim's "for every input not beginning
with '.', it returns isSpecial false". -/
theorem parseCommand_leading_space_counterexample :
    ['.'].isPrefixOf (strL " .help") = false
    ∧ (parseCommand (strL " .help")).isSpecial = true := by
  decide

/-- Claim C8 (amended: the leading-`.` test is applied to the trimmed input —
the source trims first): for every input whose trimmed form does not begin
with `.`, `parseCommand` returns `isSpecial false` with no command and no
args; for every input whose trimmed form begins with `.`, it returns
`isSpecial true`, `args` = the tokens after the first joined by single
spaces, and the command is matched exactly and case-sensitively against the
registry on the first whitespace-delimited token: `command` is `none` iff no
registry entry has that exact name, and `command = some c` only for a
registry entry `c` whose name is exactly the first token. -/
theorem parseCommand_classification (input : Str) :
    (['.'].isPrefixOf (jsTrim input) = false →
      parseCommand input = ⟨none, none, false⟩)
    ∧ (['.'].isPrefixOf (jsTrim input) = true →
      (parseCommand input).isSpecial = true
      ∧ (parseCommand input).args
          = some (List.intercalate [' '] ((jsSplitWs (jsTrim input)).drop 1))
      ∧ ((parseCommand input).command = none ↔
          ∀ c ∈ specialCommands, c.name ≠ (jsSplitWs (jsTrim input)).headD [])
      ∧ (∀ c, (parseCommand input).command = some c →
          c ∈ specialCommands ∧ c.name = (jsSplitWs (jsTrim input)).headD [])) := by
  constructor
  · intro h
    simp [parseCommand, h]
  · intro h
    refine ⟨by simp [parseCommand, h], by simp [parseCommand, h], ?_, ?_⟩
    · simp only [parseCommand, h, if_true]
      rw [List.find?_eq_none]
      constructor
      · intro hall c hc
        have := hall c hc
        simpa using this
      · intro hall c hc
        simpa using hall c hc
    · intro c hc
      simp only [parseCommand, h, if_true] at hc
      refine ⟨List.mem_of_find?_eq_some hc, ?_⟩
      have := List.find?_some hc
      simpa using this

/-- Witness for C8 (amended) at `".describe foo"`. -/
theorem parseCommand_classification_witness :
    (parseCommand (strL ".describe foo")).isSpecial = true
    ∧ (parseCommand (strL ".describe foo")).args
        = some (List.intercalate [' '] ((jsSplitWs (jsTrim (strL ".describe foo"))).drop 1)) := by
  have h := (parseCommand_classification (strL ".describe foo")).2 (by decide)
  exact ⟨h.1, h.2.1⟩

/-- Claim C5, counterexample: when the table part before the last dot is not
found, `completer` does NOT return empty — control falls through to the
keyword/default rules.  With a cache built by `loadSchema` from a backend
table literally named `foo.xy`, the non-dot input `"SELECT foo.x"` (whose
last token `foo.x` contains a dot, and whose table part `foo` matches no
cached table) yields the default-rule candidate `foo.xy`, not `[]`. -/
theorem completer_fallback_counterexample :
    (completer
        (loadRows [{ table_name := some (strL "foo.xy"), column_name := some (strL "c") }])
        (strL "SELECT foo.x")).1
      = [strL "foo.xy"]
    ∧ ['.'].isPrefixOf (jsTrimStart (strL "SELECT foo.x")) = false
    ∧ '.' ∈ (jsSplitWs (jsTrimStart (strL "SELECT foo.x"))).getLastD []
    ∧ (∀ t ∈ (loadRows
          [{ table_name := some (strL "foo.xy"), column_name := some (strL "c") }]).tables,
        lowerStr t ≠ lowerStr (strL "foo")) := by
  decide

/-- Claim C5 (amended: when the table part before the last dot matches no key
of the cached columns map, `completer` falls through to the keyword/default
rules with the entire dotted token as prefix; the candidate list is therefore
empty whenever additionally no cached table name and no cached column name
starts (case-insensitively) with that dotted token — which is the usual
situation, since table/column names do not contain dots). -/
theorem completer_table_not_found (cache : SchemaCache) (line : Str)
    (hdot : ['.'].isPrefixOf (jsTrimStart line) = false)
    (hcont : '.' ∈ (jsSplitWs (jsTrimStart line)).getLastD [])
    (hfind : (cache.columns.map Prod.fst).find?
        (fun t => lowerStr t ==
          lowerStr (lastDotSplit ((jsSplitWs (jsTrimStart line)).getLastD [])).1) = none)
    (htab : ∀ t ∈ cache.tables,
      (lowerStr ((jsSplitWs (jsTrimStart line)).getLastD [])).isPrefixOf (lowerStr t) = false)
    (hcol : ∀ c ∈ cache.allColumns,
      (lowerStr ((jsSplitWs (jsTrimStart line)).getLastD [])).isPrefixOf (lowerStr c) = false) :
    (completer cache line).1 = [] := by
  have hne : ((jsSplitWs (jsTrimStart line)).getLastD []).isEmpty = false := by
    rcases h : (jsSplitWs (jsTrimStart line)).getLastD [] with _ | _
    · rw [h] at hcont; simp at hcont
    · rfl
  have hft : cache.tables.filter
      (fun t => (lowerStr ((jsSplitWs (jsTrimStart line)).getLastD [])).isPrefixOf
        (lowerStr t)) = [] := by
    rw [List.filter_eq_nil_iff]
    intro t ht hpre
    rw [htab t ht] at hpre
    exact Bool.false_ne_true hpre
  have hfc : cache.allColumns.filter
      (fun c => (lowerStr ((jsSplitWs (jsTrimStart line)).getLastD [])).isPrefixOf
        (lowerStr c)) = [] := by
    rw [List.filter_eq_nil_iff]
    intro c hc hpre
    rw [hcol c hc] at hpre
    exact Bool.false_ne_true hpre
  have hall : ∀ pw : Str,
      (if pw ∈ [strL "FROM", strL "JOIN", strL "INTO", strL "UPDATE", strL "TABLE"] then
        (cache.tables.filter
          (fun t => (lowerStr ((jsSplitWs (jsTrimStart line)).getLastD [])).isPrefixOf
            (lowerStr t)),
          (jsSplitWs (jsTrimStart line)).getLastD [])
      else
        (jsSetDedup
          ((cache.tables ++ cache.allColumns).filter
            (fun c => (lowerStr ((jsSplitWs (jsTrimStart line)).getLastD [])).isPrefixOf
              (lowerStr c))),
          (jsSplitWs (jsTrimStart line)).getLastD [])).1 = [] := by
    intro pw
    split
    · exact hft
    · show jsSetDedup _ = []
      rw [List.filter_append, hft, hfc]
      rfl
  unfold completer
  simp only [hdot, Bool.false_eq_true, if_false, hne, hcont, if_true, hfind]
  exact hall _

/-- Witness for C5 (amended): dot-free schema, unknown table `foo` — empty
candidates for `"SELECT foo.x"`. -/
theorem completer_table_not_found_witness :
    (completer ⟨[strL "users"], [(strL "users", [strL "id"])], [strL "id"]⟩
        (strL "SELECT foo.x")).1 = [] :=
  completer_table_not_found
    ⟨[strL "users"], [(strL "users", [strL "id"])], [strL "id"]⟩ (strL "SELECT foo.x")
    (by decide) (by decide) (by decide) (by decide) (by decide)

/-- Claim C1, counterexample: a line that trims to empty inside `MULTILINE`
is discarded, not joined — so the dispatched text for
`["SELECT a", "", "FROM t;"]` is `"SELECT a\nFROM t;"`, NOT the
newline-joined concatenation of all lines from entry through the terminating
line. -/
theorem multiline_empty_line_counterexample :
    runLines initialState [strL "SELECT a", strL "", strL "FROM t;"]
      = (initialState, [strL "SELECT a\nFROM t;"])
    ∧ strL "SELECT a\nFROM t;"
      ≠ List.intercalate ['\n'] [strL "SELECT a", strL "", strL "FROM t;"] := by
  decide

/-- A `;`-terminated trimmed line is nonempty. -/
theorem endsWithSemi_ne_nil {s : Str} (h : endsWithSemi s = true) : s ≠ [] := by
  intro he
  subst he
  simp [endsWithSemi] at h

/-- A `;`-terminated trimmed line is not an exit token. -/
theorem isExitToken_eq_false_of_endsWithSemi {s : Str} (h : endsWithSemi s = true) :
    isExitToken s = false := by
  by_contra hne
  have hx : isExitToken s = true := by
    rcases hb : isExitToken s with _ | _
    · exact absurd hb hne
    · rfl
  rcases (by simpa [isExitToken, Bool.or_eq_true, beq_iff_eq] using hx) with (h1 | h1) | h1 <;>
    subst h1 <;> exact absurd h (by decide)

/-- In `MULTILINE` state with buffer `buf`, feeding non-empty, non-exit,
non-terminating lines and then one `;`-terminated line appends each line with
a newline separator and dispatches the accumulated text, returning to the
initial (`SINGLE`, empty-buffer) state. -/
theorem runLines_multiline_assembly (last : Str) (hl : endsWithSemi (jsTrim last) = true) :
    ∀ (mid : List Str) (buf : Str),
      (∀ l ∈ mid,
        jsTrim l ≠ [] ∧ endsWithSemi (jsTrim l) = false ∧ isExitToken (jsTrim l) = false) →
      runLines ⟨buf, true⟩ (mid ++ [last])
        = (initialState, [buf ++ joinedTail (mid ++ [last])]) := by
  intro mid
  induction mid with
  | nil =>
    intro buf _
    have hx := isExitToken_eq_false_of_endsWithSemi hl
    have hne : (jsTrim last).isEmpty = false := by
      rcases h : jsTrim last with _ | _
      · exact absurd h (endsWithSemi_ne_nil hl)
      · rfl
    simp [runLines, ForgeSqlCli.handleLine, hx, hne, hl, joinedTail, initialState]
  | cons l ls ih =>
    intro buf hm
    obtain ⟨h1, h2, h3⟩ := hm l (List.mem_cons_self l ls)
    have hne : (jsTrim l).isEmpty = false := by
      rcases h : jsTrim l with _ | _
      · exact absurd h h1
      · rfl
    have step :
        runLines ⟨buf, true⟩ ((l :: ls) ++ [last])
          = runLines ⟨buf ++ '\n' :: jsTrim l, true⟩ (ls ++ [last]) := by
      simp [runLines, ForgeSqlCli.handleLine, h3, hne, h2]
    rw [step, ih (buf ++ '\n' :: jsTrim l) (fun x hx => hm x (List.mem_cons_of_mem l hx))]
    simp [joinedTail, List.append_assoc]

/-- `intercalate "\n"` over trimmed lines, unrolled to seed plus tail. -/
theorem intercalate_nl_cons (a : Str) (ls : List Str) :
    List.intercalate ['\n'] (jsTrim a :: ls.map jsTrim) = jsTrim a ++ joinedTail ls := by
  induction ls generalizing a with
  | nil => simp [List.intercalate, joinedTail]
  | cons b bs ih =>
    have hcc : List.intercalate ['\n'] (jsTrim a :: jsTrim b :: bs.map jsTrim)
        = jsTrim a ++ ['\n'] ++ List.intercalate ['\n'] (jsTrim b :: bs.map jsTrim) := by
      simp [List.intercalate, List.intersperse_cons_cons]
    rw [List.map_cons, hcc, ih b]
    simp [joinedTail, List.append_assoc]

/-- Claim C1 (amended: every line after the first must be non-empty and not
an exit token, and only the final line `;`-terminated — lines trimming to
empty are discarded by `handleLine` without being joined, and exit tokens
close the session): for every such sequence whose first trimmed line enters
`MULTILINE` (non-empty, not `;`-terminated, not dot-prefixed, not an exit
token), the session loop dispatches exactly one unit, equal to the
newline-joined concatenation of the trimmed lines from entry through the
terminating line, in order, and returns to the initial state. -/
theorem multiline_dispatch_joins_lines (first last : Str) (mid : List Str)
    (h0e : jsTrim first ≠ []) (h0s : endsWithSemi (jsTrim first) = false)
    (h0d : startsWithDot (jsTrim first) = false)
    (h0x : isExitToken (jsTrim first) = false)
    (hm : ∀ l ∈ mid,
      jsTrim l ≠ [] ∧ endsWithSemi (jsTrim l) = false ∧ isExitToken (jsTrim l) = false)
    (hl : endsWithSemi (jsTrim last) = true) :
    runLines initialState (first :: (mid ++ [last]))
      = (initialState,
          [List.intercalate ['\n'] ((first :: (mid ++ [last])).map jsTrim)]) := by
  have hne : (jsTrim first).isEmpty = false := by
    rcases h : jsTrim first with _ | _
    · exact absurd h h0e
    · rfl
  have step :
      runLines initialState (first :: (mid ++ [last]))
        = runLines ⟨jsTrim first, true⟩ (mid ++ [last]) := by
    simp [runLines, ForgeSqlCli.handleLine, initialState, h0x, hne, h0s, h0d]
  rw [step, runLines_multiline_assembly last hl mid (jsTrim first) hm]
  rw [List.map_cons, List.map_append]
  rw [show (mid.map jsTrim ++ [last].map jsTrim) = (mid ++ [last]).map jsTrim from
    (List.map_append jsTrim mid [last]).symm]
  rw [intercalate_nl_cons first (mid ++ [last])]

/-- Witness for C1 (amended) on a three-line statement. -/
theorem multiline_dispatch_joins_lines_witness :
    runLines initialState [strL "SELECT a", strL "FROM t", strL "WHERE x = 1;"]
      = (initialState,
          [List.intercalate ['\n']
            (([strL "SELECT a", strL "FROM t", strL "WHERE x = 1;"]).map jsTrim)]) :=
  multiline_dispatch_joins_lines (strL "SELECT a") (strL "WHERE x = 1;") [strL "FROM t"]
    (by decide) (by decide) (by decide) (by decide) (by decide) (by decide)

/-- Claim C4, counterexample: a statement containing an embedded newline
(e.g. an assembled multiline SQL text) is written as several physical lines,
so save-then-load splits it into several history entries: one added statement
reloads as two different statements. -/
theorem history_newline_counterexample :
    History.add [] (strL "SELECT a\nFROM t;") = [strL "SELECT a\nFROM t;"]
    ∧ History.loadList
        (History.saveContent (History.add [] (strL "SELECT a\nFROM t;")) 1000)
      = [strL "SELECT a", strL "FROM t;"]
    ∧ [strL "SELECT a", strL "FROM t;"] ≠ [strL "SELECT a\nFROM t;"] := by
  decide

/-- `trim` only removes characters: membership in the trimmed string implies
membership in the original. -/
theorem mem_of_mem_jsTrim {c : Char} {s : Str} (h : c ∈ jsTrim s) : c ∈ s := by
  unfold jsTrim at h
  rw [List.mem_reverse] at h
  have h2 := (List.dropWhile_sublist Char.isWhitespace).subset h
  rw [List.mem_reverse] at h2
  exact (List.dropWhile_sublist Char.isWhitespace).subset h2

/-- Entries produced by `History.add` are nonempty and, when no added
statement contains a newline, newline-free. -/
theorem History.add_entry_good (h0 : List Str) (s : Str)
    (hg : ∀ e ∈ h0, e ≠ [] ∧ '\n' ∉ e) (hs : '\n' ∉ s) :
    ∀ e ∈ History.add h0 s, e ≠ [] ∧ '\n' ∉ e := by
  intro e he
  simp only [History.add] at he
  split at he
  case isTrue hcond =>
    rcases List.mem_append.mp he with h' | h'
    · exact hg e h'
    · have he' : e = jsTrim s := by simpa using h'
      subst he'
      refine ⟨?_, fun hmem => hs (mem_of_mem_jsTrim hmem)⟩
      have hne : (jsTrim s).isEmpty = false := by
        have := (Bool.and_eq_true _ _).mp hcond |>.1
        simpa using this
      intro hnil
      rw [hnil] at hne
      exact Bool.true_eq_false ▸ (by simpa using hne)
  case isFalse => exact hg e he

/-- All entries of a history built by repeated `History.add` from
newline-free statements are nonempty and newline-free. -/
theorem History.foldl_add_good (stmts : List Str) (h0 : List Str)
    (hg : ∀ e ∈ h0, e ≠ [] ∧ '\n' ∉ e) (hs : ∀ s ∈ stmts, '\n' ∉ s) :
    ∀ e ∈ stmts.foldl History.add h0, e ≠ [] ∧ '\n' ∉ e := by
  induction stmts generalizing h0 with
  | nil => simpa using hg
  | cons s ss ih =>
    exact ih (History.add h0 s)
      (History.add_entry_good h0 s hg (hs s (List.mem_cons_self s ss)))
      (fun x hx => hs x (List.mem_cons_of_mem s hx))

/-- Save-then-load is the identity on histories whose entries are nonempty
and newline-free. -/
theorem History.loadList_intercalate (l : List Str)
    (hg : ∀ e ∈ l, e ≠ [] ∧ '\n' ∉ e) :
    History.loadList (List.intercalate ['\n'] l) = l := by
  cases l with
  | nil => rfl
  | cons a as =>
    have hsplit := List.splitOn_intercalate (a :: as) '\n'
      (fun x hx => (hg x hx).2) (by simp)
    unfold History.loadList
    rw [hsplit]
    rw [List.filter_eq_self]
    intro x hx
    have := (hg x hx).1
    simpa [List.isEmpty_iff] using this

/-- Claim C4 (amended: statements must be newline-free — an embedded newline
is split back into several entries by `load` — and the reloaded sequence is
the in-memory history, i.e. the added statements after trimming, dropping
empties and dropping entries equal to the immediately preceding one):
building a history from newline-free statements, saving it and reloading
yields exactly that history truncated to the most recent `maxSize` entries,
most-recent-last. -/
theorem history_roundtrip (stmts : List Str) (maxSize : Nat) (hpos : 0 < maxSize)
    (hs : ∀ s ∈ stmts, '\n' ∉ s) :
    History.loadList (History.saveContent (stmts.foldl History.add []) maxSize)
      = (stmts.foldl History.add []).drop
          ((stmts.foldl History.add []).length - maxSize) := by
  have hg : ∀ e ∈ stmts.foldl History.add [], e ≠ [] ∧ '\n' ∉ e :=
    History.foldl_add_good stmts [] (by simp) hs
  unfold History.saveContent
  rw [if_neg (Nat.pos_iff_ne_zero.mp hpos)]
  exact History.loadList_intercalate _
    (fun e he => hg e (List.drop_subset _ _ he))

/-- Witness for C4 (amended) with two statements and the default maximum. -/
theorem history_roundtrip_witness :
    History.loadList
        (History.saveContent ([strL "SELECT 1;", strL "SELECT 2;"].foldl History.add []) 1000)
      = ([strL "SELECT 1;", strL "SELECT 2;"].foldl History.add []).drop
          (([strL "SELECT 1;", strL "SELECT 2;"].foldl History.add []).length - 1000) :=
  history_roundtrip [strL "SELECT 1;", strL "SELECT 2;"] 1000 (by decide) (by decide)

/-- Folding metadata rows is folding their valid `(table, column)` pairs:
skipped rows contribute nothing. -/
theorem foldl_loadStep_eq_pairs (rows : List MetaRow) :
    ∀ st : SchemaCache,
      rows.foldl loadStep st = (rows.filterMap rowEntry).foldl pairStep st := by
  induction rows with
  | nil => intro st; rfl
  | cons r rs ih =>
    intro st
    cases h : rowEntry r <;> simp [List.foldl_cons, List.filterMap_cons, loadStep, h, ih]

/-- Filtering out the skipped rows first does not change the valid pairs. -/
theorem filterMap_rowEntry_filter (rows : List MetaRow) :
    (rows.filter (fun r => (rowEntry r).isSome)).filterMap rowEntry
      = rows.filterMap rowEntry := by
  induction rows with
  | nil => rfl
  | cons r rs ih => cases h : rowEntry r <;> simp [List.filter_cons, h, ih]

/-- The `tables` component of the pair fold is a JS-`Set` insertion fold over
the table names. -/
theorem pairStep_tables (ps : List (Str × Str)) :
    ∀ st : SchemaCache,
      (ps.foldl pairStep st).tables = (ps.map Prod.fst).foldl insertStep st.tables := by
  induction ps with
  | nil => intro st; rfl
  | cons p ps ih => intro st; simp [List.foldl_cons, ih, pairStep, insertStep]

/-- The `allColumns` component of the pair fold is a JS-`Set` insertion fold
over the column names. -/
theorem pairStep_allColumns (ps : List (Str × Str)) :
    ∀ st : SchemaCache,
      (ps.foldl pairStep st).allColumns
        = (ps.map Prod.snd).foldl insertStep st.allColumns := by
  induction ps with
  | nil => intro st; rfl
  | cons p ps ih => intro st; simp [List.foldl_cons, ih, pairStep, insertStep]

/-- A JS-`Set` insertion fold preserves `Nodup`. -/
theorem foldl_insertStep_nodup {α : Type} [DecidableEq α] (l : List α) :
    ∀ acc : List α, acc.Nodup → (l.foldl insertStep acc).Nodup := by
  induction l with
  | nil => intro acc h; exact h
  | cons a as ih =>
    intro acc h
    refine ih _ ?_
    unfold insertStep
    split
    · exact h
    · next hmem => simp [List.nodup_append, h, hmem]

/-- Membership after a JS-`Set` insertion fold. -/
theorem mem_foldl_insertStep {α : Type} [DecidableEq α] (l : List α) :
    ∀ (acc : List α) (x : α), x ∈ l.foldl insertStep acc ↔ x ∈ acc ∨ x ∈ l := by
  induction l with
  | nil => intro acc x; simp
  | cons a as ih =>
    intro acc x
    rw [List.foldl_cons, ih]
    unfold insertStep
    split
    · next hmem =>
      constructor
      · rintro (h | h)
        · exact Or.inl h
        · exact Or.inr (List.mem_cons_of_mem a h)
      · rintro (h | h)
        · exact Or.inl h
        · rcases List.mem_cons.mp h with h' | h'
          · subst h'; exact Or.inl hmem
          · exact Or.inr h'
    · constructor
      · rintro (h | h)
        · rcases List.mem_append.mp h with h' | h'
          · exact Or.inl h'
          · simp at h'; subst h'; exact Or.inr (List.mem_cons_self _ _)
        · exact Or.inr (List.mem_cons_of_mem a h)
      · rintro (h | h)
        · exact Or.inl (List.mem_append_left _ h)
        · rcases List.mem_cons.mp h with h' | h'
          · subst h'; exact Or.inl (List.mem_append_right _ (by simp))
          · exact Or.inr h'

/-- Lookup after a `mapPush`: only the pushed key's entry changes, by
appending the new value. -/
theorem lookup_mapPush (m : List (Str × List Str)) (k v t : Str) :
    (mapPush m k v).lookup t
      = if t = k then (m.lookup t).map (fun cs => cs ++ [v]) else m.lookup t := by
  induction m with
  | nil => simp [mapPush]
  | cons q m ih =>
    obtain ⟨a, b⟩ := q
    have hm : mapPush ((a, b) :: m) k v
        = (if a = k then (a, b ++ [v]) else (a, b)) :: mapPush m k v := by
      simp [mapPush]
    rw [hm]
    by_cases hak : a = k
    · rw [if_pos hak]
      by_cases hta : t = a
      · have h1 : (t == a) = true := by simp [hta]
        simp [List.lookup_cons, h1, hta, hak]
      · have h1 : (t == a) = false := by simp [hta]
        have h2 : ¬t = k := fun h => hta (h.trans hak.symm)
        simp [List.lookup_cons, h1, hta, h2, ih]
    · rw [if_neg hak]
      by_cases hta : t = a
      · have h1 : (t == a) = true := by simp [hta]
        have h2 : ¬t = k := fun h => hak (hta.symm.trans h)
        simp [List.lookup_cons, h1, h2]
      · have h1 : (t == a) = false := by simp [hta]
        simp [List.lookup_cons, h1, ih]

/-- Lookup in an appended association list scans the left part first. -/
theorem lookup_append_assoc_list (m₁ m₂ : List (Str × List Str)) (t : Str) :
    (m₁ ++ m₂).lookup t
      = match m₁.lookup t with
        | some b => some b
        | none => m₂.lookup t := by
  induction m₁ with
  | nil => simp
  | cons q m ih =>
    obtain ⟨a, b⟩ := q
    by_cases hta : t = a
    · have h1 : (t == a) = true := by simp [hta]
      simp [List.lookup_cons, h1]
    · have h1 : (t == a) = false := by simp [hta]
      simp [List.lookup_cons, h1, ih]

/-- Per-table column lists after the pair fold: the entry of `t` extends the
incoming entry with the columns of the pairs for `t`, in pair order; absent
keys appear exactly when a pair for `t` exists. -/
theorem pairStep_columns_lookup (ps : List (Str × Str)) :
    ∀ (st : SchemaCache) (t : Str),
      ((ps.foldl pairStep st).columns).lookup t
        = match st.columns.lookup t with
          | some cs => some (cs ++ (ps.filter (fun p => p.1 == t)).map Prod.snd)
          | none =>
            match (ps.filter (fun p => p.1 == t)).map Prod.snd with
            | [] => none
            | cs => some cs := by
  induction ps with
  | nil =>
    intro st t
    cases h : st.columns.lookup t <;> simp [h]
  | cons p ps ih =>
    intro st t
    obtain ⟨a, b⟩ := p
    rw [List.foldl_cons, ih (pairStep st (a, b)) t]
    by_cases hta : t = a
    · have h1 : ((a, b).1 == t) = true := by simp [hta]
      have hf : ((a, b) :: ps).filter (fun p => p.1 == t)
          = (a, b) :: ps.filter (fun p => p.1 == t) := by
        rw [List.filter_cons, if_pos h1]
      rw [hf, List.map_cons]
      cases hlk : st.columns.lookup t with
      | some cs =>
        have hpc : (pairStep st (a, b)).columns.lookup t = some (cs ++ [b]) := by
          simp only [pairStep]
          rw [if_pos (show (st.columns.lookup (a, b).1).isSome = true by
            simp [← hta, hlk])]
          rw [lookup_mapPush, if_pos hta, hlk]
          rfl
        rw [hpc]
        simp
      | none =>
        have hpc : (pairStep st (a, b)).columns.lookup t = some [b] := by
          simp only [pairStep]
          rw [if_neg (show ¬(st.columns.lookup (a, b).1).isSome = true by
            simp [← hta, hlk])]
          rw [lookup_append_assoc_list, hlk]
          have h2 : (t == a) = true := by simp [hta]
          simp [List.lookup_cons, h2]
        rw [hpc]
        simp
    · have h1 : ((a, b).1 == t) = false := by
        simp
        exact fun h => hta h.symm
      have hf : ((a, b) :: ps).filter (fun p => p.1 == t)
          = ps.filter (fun p => p.1 == t) := by
        rw [List.filter_cons, if_neg (by simp [h1])]
      have hpc : (pairStep st (a, b)).columns.lookup t = st.columns.lookup t := by
        simp only [pairStep]
        split
        · rw [lookup_mapPush, if_neg hta]
        · rw [lookup_append_assoc_list]
          cases hlk : st.columns.lookup t with
          | some cs => rfl
          | none =>
            have h2 : (t == a) = false := by simp [hta]
            simp [List.lookup_cons, h2]
      rw [hpc, hf]

/-- Claim C9: for every sequence of metadata rows, the cache built by
`loadSchema` (i) lists each table name exactly once — `tables` is
duplicate-free and contains exactly the table names of the valid rows — and
(ii) lists each entry of `allColumns` exactly once likewise; (iii) each
table's column list is exactly the column names of that table's valid rows in
first-seen (row) order; and (iv) rows missing the table-name or column-name
field (under the lower- or upper-case key, or carrying an empty string) are
silently skipped: dropping them from the input leaves the cache unchanged. -/
theorem loadSchema_cache_characterization (rows : List MetaRow) :
    (loadRows rows).tables.Nodup
    ∧ (loadRows rows).allColumns.Nodup
    ∧ (∀ t, t ∈ (loadRows rows).tables ↔ t ∈ (rows.filterMap rowEntry).map Prod.fst)
    ∧ (∀ c, c ∈ (loadRows rows).allColumns ↔ c ∈ (rows.filterMap rowEntry).map Prod.snd)
    ∧ (∀ t, ((loadRows rows).columns).lookup t
        = match ((rows.filterMap rowEntry).filter (fun p => p.1 == t)).map Prod.snd with
          | [] => none
          | cs => some cs)
    ∧ loadRows rows = loadRows (rows.filter (fun r => (rowEntry r).isSome)) := by
  have he : loadRows rows = (rows.filterMap rowEntry).foldl pairStep emptyCache :=
    foldl_loadStep_eq_pairs rows emptyCache
  refine ⟨?_, ?_, ?_, ?_, ?_, ?_⟩
  · rw [he, pairStep_tables]
    exact foldl_insertStep_nodup _ _ (by simp [emptyCache])
  · rw [he, pairStep_allColumns]
    exact foldl_insertStep_nodup _ _ (by simp [emptyCache])
  · intro t
    rw [he, pairStep_tables, mem_foldl_insertStep]
    simp [emptyCache]
  · intro c
    rw [he, pairStep_allColumns, mem_foldl_insertStep]
    simp [emptyCache]
  · intro t
    rw [he, pairStep_columns_lookup]
    simp [emptyCache]
  · rw [he]
    unfold loadRows
    rw [foldl_loadStep_eq_pairs, filterMap_rowEntry_filter]
